import Mathlib

/-!
Verification of the scheduling/recurrence engine of the home-tasks web app
(public/app.js) against its natural-language specification.

Modelling conventions:
* Calendar dates are integers: the whole-day offset from the reference date
  2024-01-01 (which is a Monday). A date value denotes that day's midnight
  instant, so the millisecond difference between two dates is an exact
  multiple of a day and the JS floor divisions reduce to integer division.
* JS objects used as string-keyed maps are association lists preserving
  key-insertion order, matching JS object key enumeration.
* Locale date rendering (toLocaleDateString) is an external browser API;
  the display string is modelled by a structured value (DueText) carrying
  the branch taken and the computed date, one constructor per format branch.
* JSON.parse is an external API; it is modelled by an arbitrary parser
  argument returning Option (none = the exception path).
-/

namespace HomeTasks

/-- A task as it appears in schedule.json: only the fields the engine reads. -/
structure Task where
  name : String
  location : String
  minutes : Option Nat := none
deriving Repr, DecidableEq

/-- The static schedule: daily tasks plus the 12-week grid.
The grid is a list of (week number, list of (weekday name, tasks)) pairs,
mirroring the JS object twelve_week_schedule with keys week_1 .. week_12. -/
structure Schedule where
  daily_tasks : List Task
  twelve_week_schedule : List (Nat × List (String × List Task))
deriving Repr, DecidableEq

/-- Access schedule.twelve_week_schedule[week_n]; none models an absent key. -/
def lookupWeek (s : Schedule) (n : Nat) : Option (List (String × List Task)) :=
  (s.twelve_week_schedule.find? (fun p => p.1 == n)).map Prod.snd

/-- The daysOfWeek array of findTaskOccurrences (JS getDay order: Sunday = 0). -/
def daysOfWeek : List String :=
  ["Sunday", "Monday", "Tuesday", "Wednesday", "Thursday", "Friday", "Saturday"]

/-- JS Array.prototype.indexOf: index of first match, -1 when absent. -/
def jsIndexOf (l : List String) (x : String) : Int :=
  match l.findIdx? (fun y => y == x) with
  | some i => (i : Int)
  | none => -1

/-- An occurrence as built by findTaskOccurrences: the daily marker, or a
weekly slot carrying week number, weekday name and the JS dayOfWeek index. -/
inductive Occurrence where
  | daily
  | weekly (week : Nat) (dayName : String) (dayOfWeek : Int)
deriving Repr, DecidableEq

/-- CYCLE_LENGTH_WEEKS in app.js. -/
def CYCLE_LENGTH_WEEKS : Nat := 12

/-- getCurrentWeekInCycle: with t the day offset from REFERENCE_DATE,
Math.abs of the difference, floored into 7-day weeks, mod 12, plus 1. -/
def getCurrentWeekInCycle (t : Int) : Nat :=
  (t.natAbs / 7) % CYCLE_LENGTH_WEEKS + 1

/-- JS Date.prototype.getDay for day-offset t: 2024-01-01 is a Monday (1),
so the weekday index is (t + 1) mod 7 with a nonnegative (Euclidean) mod. -/
def getDay (t : Int) : Int := (t + 1) % 7

/-- findTaskOccurrences(taskName): daily membership short-circuits; otherwise
scan weeks 1..12 and collect every (week, weekday) slot containing the name. -/
def findTaskOccurrences (s : Schedule) (taskName : String) : List Occurrence :=
  if s.daily_tasks.any (fun t => t.name == taskName) then
    [Occurrence.daily]
  else
    (List.range' 1 12).flatMap (fun weekNum =>
      match lookupWeek s weekNum with
      | none => []
      | some week =>
        week.filterMap (fun day =>
          if day.2.any (fun t => t.name == taskName) then
            some (Occurrence.weekly weekNum day.1 (jsIndexOf daysOfWeek day.1))
          else
            none))

/-- Math.round(a / b) for nonnegative a and positive b: JS rounds half up,
i.e. floor(a / b + 1/2) = (2 a + b) / (2 b) in integer division. -/
def jsRoundDiv (a b : Nat) : Nat := (2 * a + b) / (2 * b)

/-- The display string of getNextScheduledDate, one constructor per format
branch; weekly-path constructors carry the computed next-due day offset. -/
inductive DueText where
  | notScheduled
  | asNeeded
  | tomorrowDaily (next : Int)
  | dueToday
  | tomorrow (next : Int)
  | weekdayName (next : Int)
  | onDate (next : Int)
deriving Repr, DecidableEq

/-- The record returned by getNextScheduledDate. -/
structure DueResult where
  text : DueText
  overdue : Bool
deriving Repr, DecidableEq

/-- Insert into a sorted list of dates, preserving ascending order. -/
def insertSorted (x : Int) : List Int → List Int
  | [] => [x]
  | y :: ys => if x ≤ y then x :: y :: ys else y :: insertSorted x ys

/-- The numeric ascending sort nextOccurrences.sort((a, b) => a - b). -/
def sortInts (l : List Int) : List Int := l.foldr insertSorted []

/-- The per-occurrence date computation of the weekly path: move to the
occurrence's weekday in the current week, roll forward 7 days when that day
is today or earlier, then add weeksUntil * 7. A daily occurrence never
reaches this computation (the daily branch returns first). -/
def occNextDate (today : Int) (currentWeek : Nat) : Occurrence → Int
  | Occurrence.daily => today
  | Occurrence.weekly week _ dayOfWeek =>
    let weeksUntil : Int := ((week : Int) - (currentWeek : Int) + 12) % 12
    let d0 := today - getDay today + dayOfWeek
    let d1 := if d0 ≤ today then d0 + 7 else d0
    if 0 < weeksUntil then d1 + weeksUntil * 7 else d1

/-- getNextScheduledDate(task): occurrences from the schedule, then the
unscheduled / daily / weekly branches exactly as in app.js. -/
def getNextScheduledDate (s : Schedule) (taskName : String)
    (lastCompleted : Option Int) (today : Int) : DueResult :=
  match findTaskOccurrences s taskName with
  | [] =>
    match lastCompleted with
    | some _ => ⟨DueText.asNeeded, false⟩
    | none => ⟨DueText.notScheduled, false⟩
  | occ0 :: rest =>
    match occ0 with
    | Occurrence.daily => ⟨DueText.tomorrowDaily (today + 1), false⟩
    | Occurrence.weekly w dn dow =>
      let occurrences := Occurrence.weekly w dn dow :: rest
      let currentWeek := getCurrentWeekInCycle today
      let nextOccurrences := occurrences.map (occNextDate today currentWeek)
      let nextDate := (sortInts nextOccurrences).headD today
      let isOverdue :=
        match lastCompleted with
        | none => false
        | some lc =>
          let daysSince := today - lc
          let expected := jsRoundDiv (12 * 7) occurrences.length
          decide (daysSince > (expected : Int) + 3)
      let diffDays := nextDate - today
      if diffDays = 0 then ⟨DueText.dueToday, isOverdue⟩
      else if diffDays = 1 then ⟨DueText.tomorrow nextDate, isOverdue⟩
      else if diffDays ≤ 7 then ⟨DueText.weekdayName nextDate, isOverdue⟩
      else ⟨DueText.onDate nextDate, isOverdue⟩

/-- One entry of the shared task-history document. -/
structure HistoryEntry where
  location : String
  lastCompleted : Int
deriving Repr, DecidableEq

/-- JS object property assignment obj[key] = v on an insertion-ordered map:
replace in place when the key exists, else append. -/
def upsert {α : Type} (l : List (String × α)) (key : String) (v : α) :
    List (String × α) :=
  if l.any (fun p => p.1 == key) then
    l.map (fun p => if p.1 == key then (key, v) else p)
  else
    l ++ [(key, v)]

/-- recordTaskCompletion's history transformation: upsert the completion,
then delete every entry completed before today - 12*7 days. -/
def recordTaskCompletion (history : List (String × HistoryEntry))
    (taskName location : String) (today : Int) : List (String × HistoryEntry) :=
  let h1 := upsert history taskName ⟨location, today⟩
  let twelveWeeksAgo := today - 12 * 7
  h1.filter (fun p => !decide (p.2.lastCompleted < twelveWeeksAgo))

/-- getTaskHistory's localStorage path: saved ? JSON.parse(saved) : empty.
JSON.parse is not wrapped in try/catch here, so a failed parse (parse
returning none) is a thrown exception, modelled as Except.error. -/
def getTaskHistoryLocal (parse : String → Option (List (String × HistoryEntry)))
    (saved : Option String) : Except Unit (List (String × HistoryEntry)) :=
  match saved with
  | none => Except.ok []
  | some s =>
    match parse s with
    | some h => Except.ok h
    | none => Except.error ()

/-- The per-day task-state document saved by saveTaskStates. -/
structure StateDoc where
  date : String
  tasks : List (String × Bool)
deriving Repr, DecidableEq

/-- loadTaskStates' localStorage path: the JSON.parse sits inside try/catch,
so a failed parse leaves the default (no checkbox applied); a stale date
also applies nothing. The result is the checkbox assignment applied. -/
def loadTaskStatesLocal (parse : String → Option StateDoc)
    (saved : Option String) (today : String) : List (String × Bool) :=
  match saved with
  | none => []
  | some s =>
    match parse s with
    | none => []
    | some data => if data.date == today then data.tasks else []

/-- saveTaskStates: build the day's document and write it whole under the
day's key (set with no merge option is a full-replace write). -/
def saveTaskStates (store : List (String × StateDoc)) (today : String)
    (states : List (String × Bool)) : List (String × StateDoc) :=
  upsert store today ⟨today, states⟩

/-- Concrete schedule for the spec's Vacuum scenario: the task sits in
week_1/Monday and week_7/Monday only. -/
def vacuumTask : Task := ⟨"Vacuum", "All Rooms", none⟩

/-- Schedule whose only rotation slots for Vacuum are week_1/Monday and
week_7/Monday with no daily tasks. -/
def vacuumSchedule : Schedule :=
  ⟨[], [(1, [("Monday", [vacuumTask])]), (7, [("Monday", [vacuumTask])])]⟩

/-- Concrete task for the single-occurrence overdue-boundary scenario. -/
def ovenTask : Task := ⟨"Deep clean oven", "Kitchen", none⟩

/-- Schedule giving ovenTask exactly one weekly occurrence per cycle. -/
def onceSchedule : Schedule := ⟨[], [(4, [("Tuesday", [ovenTask])])]⟩

/-- Concrete daily task for the daily-path scenarios. -/
def wipeTask : Task := ⟨"Wipe counters", "Kitchen", none⟩

/-- Schedule where the same name is both a daily task and a rotation entry,
exercising the daily short-circuit over the name collision. -/
def collisionSchedule : Schedule := ⟨[wipeTask], [(1, [("Monday", [wipeTask])])]⟩

/-- Schedule with no daily tasks and an empty rotation grid. -/
def emptySchedule : Schedule := ⟨[], []⟩

lemma findTaskOccurrences_daily (s : Schedule) (name : String)
    (h : s.daily_tasks.any (fun t => t.name == name) = true) :
    findTaskOccurrences s name = [Occurrence.daily] := by
  simp only [findTaskOccurrences, h, if_true]

lemma lookupWeek_mem {s : Schedule} {n : Nat} {week : List (String × List Task)}
    (h : lookupWeek s n = some week) :
    ∃ pr ∈ s.twelve_week_schedule, pr.2 = week := by
  unfold lookupWeek at h
  cases hf : s.twelve_week_schedule.find? (fun p => p.1 == n) with
  | none => rw [hf] at h; simp at h
  | some pr =>
    rw [hf] at h
    refine ⟨pr, List.mem_of_find?_eq_some hf, ?_⟩
    simpa using h

lemma occ_mem_shape {s : Schedule} {name : String} {o : Occurrence}
    (hd : s.daily_tasks.any (fun t => t.name == name) = false)
    (ho : o ∈ findTaskOccurrences s name) :
    ∃ w dn, o = Occurrence.weekly w dn (jsIndexOf daysOfWeek dn) ∧
      ∃ pr ∈ s.twelve_week_schedule, ∃ day ∈ pr.2, day.1 = dn := by
  unfold findTaskOccurrences at ho
  rw [if_neg (by simp [hd])] at ho
  rw [List.mem_flatMap] at ho
  obtain ⟨w, _hw, how⟩ := ho
  cases hlw : lookupWeek s w with
  | none => rw [hlw] at how; simp at how
  | some week =>
    rw [hlw] at how
    rw [List.mem_filterMap] at how
    obtain ⟨day, hday, hsome⟩ := how
    split at hsome
    · obtain ⟨pr, hpr, hpreq⟩ := lookupWeek_mem hlw
      refine ⟨w, day.1, (Option.some.inj hsome).symm, pr, hpr, day, ?_, rfl⟩
      rw [hpreq]; exact hday
    · exact absurd hsome (by simp)

lemma jsIndexOf_daysOfWeek_bounds :
    ∀ dn ∈ daysOfWeek, 0 ≤ jsIndexOf daysOfWeek dn ∧ jsIndexOf daysOfWeek dn ≤ 6 := by
  decide

lemma occNextDate_gt_today (today : Int) (cw w : Nat) (dn : String) (dow : Int)
    (h0 : 0 ≤ dow) (h6 : dow ≤ 6) :
    today < occNextDate today cw (Occurrence.weekly w dn dow) := by
  simp only [occNextDate, getDay]
  have hg0 : 0 ≤ (today + 1) % 7 := Int.emod_nonneg _ (by norm_num)
  have hg7 : (today + 1) % 7 < 7 := Int.emod_lt_of_pos _ (by norm_num)
  split_ifs <;> omega

lemma mem_insertSorted {x y : Int} {l : List Int} (h : y ∈ insertSorted x l) :
    y = x ∨ y ∈ l := by
  induction l with
  | nil =>
    simp only [insertSorted, List.mem_singleton] at h
    exact Or.inl h
  | cons z zs ih =>
    simp only [insertSorted] at h
    split_ifs at h with hle
    · rcases List.mem_cons.mp h with h1 | h2
      · exact Or.inl h1
      · exact Or.inr h2
    · rcases List.mem_cons.mp h with h1 | h2
      · exact Or.inr (List.mem_cons.mpr (Or.inl h1))
      · rcases ih h2 with h3 | h4
        · exact Or.inl h3
        · exact Or.inr (List.mem_cons.mpr (Or.inr h4))

lemma mem_sortInts {y : Int} {l : List Int} (h : y ∈ sortInts l) : y ∈ l := by
  induction l with
  | nil => simp [sortInts] at h
  | cons z zs ih =>
    simp only [sortInts, List.foldr] at h ih
    rcases mem_insertSorted h with h1 | h2
    · exact List.mem_cons.mpr (Or.inl h1)
    · exact List.mem_cons.mpr (Or.inr (ih h2))

lemma insertSorted_ne_nil (x : Int) (l : List Int) : insertSorted x l ≠ [] := by
  cases l with
  | nil => simp [insertSorted]
  | cons z zs => simp only [insertSorted]; split_ifs <;> simp

lemma sortInts_ne_nil {l : List Int} (h : l ≠ []) : sortInts l ≠ [] := by
  cases l with
  | nil => exact absurd rfl h
  | cons z zs => exact insertSorted_ne_nil _ _

lemma headD_mem {l : List Int} (h : l ≠ []) (d : Int) : l.headD d ∈ l := by
  cases l with
  | nil => exact absurd rfl h
  | cons z zs => simp

lemma upsert_any {α : Type} (l : List (String × α)) (k : String) (v : α) :
    (upsert l k v).any (fun p => p.1 == k) = true := by
  unfold upsert
  split_ifs with h
  · rw [List.any_eq_true] at h ⊢
    obtain ⟨p, hp, hpk⟩ := h
    exact ⟨(k, v), List.mem_map.mpr ⟨p, hp, by simp [hpk]⟩, by simp⟩
  · rw [List.any_eq_true]
    exact ⟨(k, v), by simp, by simp⟩

lemma upsert_eq_of_mem {α : Type} {l : List (String × α)} {k : String} {v : α}
    {p : String × α} (hp : p ∈ upsert l k v) (hk : (p.1 == k) = true) :
    p = (k, v) := by
  unfold upsert at hp
  split_ifs at hp with h
  · rw [List.mem_map] at hp
    obtain ⟨q, hq, hfq⟩ := hp
    by_cases hqk : (q.1 == k) = true
    · rw [if_pos hqk] at hfq; exact hfq.symm
    · rw [if_neg hqk] at hfq
      exact absurd (hfq ▸ hk) hqk
  · rw [List.mem_append] at hp
    rcases hp with hin | hlast
    · rw [List.any_eq_true] at h
      exact absurd ⟨p, hin, hk⟩ h
    · simpa using hlast

lemma upsert_self {α : Type} (l : List (String × α)) (k : String) (v : α)
    (hany : l.any (fun p => p.1 == k) = true)
    (heq : ∀ p ∈ l, (p.1 == k) = true → p = (k, v)) :
    upsert l k v = l := by
  unfold upsert
  rw [if_pos hany]
  have h2 : ∀ p ∈ l, (if p.1 == k then (k, v) else p) = id p := by
    intro p hp
    by_cases hk : (p.1 == k) = true
    · rw [if_pos hk, heq p hp hk]; rfl
    · rw [if_neg hk]; rfl
  rw [List.map_congr_left h2, List.map_id]

/-- C2 counterexample: the cycle-week function is not 84-day periodic at
every date. At t = -1 (2023-12-31, one day before the reference) the
absolute-difference computation gives week 1, while 84 days later (t = 83)
gives week 12, so the claimed two-sided periodicity fails. -/
theorem c2_counterexample :
    ¬ (getCurrentWeekInCycle (-1 + 84) = getCurrentWeekInCycle (-1) ∧
       getCurrentWeekInCycle (-1 - 84) = getCurrentWeekInCycle (-1)) := by
  decide

/-- C2 amended: getCurrentWeekInCycle is 84-day periodic as long as the
shift does not cross the reference date: forward shifts are period-preserving
for dates on or after the reference, and backward shifts for dates on or
before it. The absolute value breaks periodicity only on the 84 days
immediately preceding the reference. -/
theorem c2_cycle_periodicity (t : Int) :
    (0 ≤ t → getCurrentWeekInCycle (t + 84) = getCurrentWeekInCycle t) ∧
    (t ≤ 0 → getCurrentWeekInCycle (t - 84) = getCurrentWeekInCycle t) := by
  unfold getCurrentWeekInCycle CYCLE_LENGTH_WEEKS
  constructor <;> intro h <;> omega

/-- C2 witness: the amended periodicity at the concrete dates t = 7 and
t = -7. -/
theorem c2_cycle_periodicity_witness :
    getCurrentWeekInCycle (7 + 84) = getCurrentWeekInCycle 7 ∧
    getCurrentWeekInCycle (-7 - 84) = getCurrentWeekInCycle (-7) :=
  ⟨(c2_cycle_periodicity 7).1 (by decide), (c2_cycle_periodicity (-7)).2 (by decide)⟩

/-- C3: on the weekly path (first occurrence weekly) with a recorded last
completion, the overdue flag is set exactly when the days since completion
exceed round(84 / occurrenceCount) + 3. -/
theorem c3_overdue_boundary (s : Schedule) (taskName : String) (lc today : Int)
    (w : Nat) (dn : String) (dow : Int) (rest : List Occurrence)
    (h : findTaskOccurrences s taskName = Occurrence.weekly w dn dow :: rest) :
    (getNextScheduledDate s taskName (some lc) today).overdue = true ↔
      today - lc > (jsRoundDiv (12 * 7) (findTaskOccurrences s taskName).length : Int) + 3 := by
  simp only [getNextScheduledDate, h]
  split_ifs <;> simp [decide_eq_true_eq]

/-- C3 witness: with exactly one occurrence per cycle
(expectedIntervalDays = 84), a completion 88 days ago is overdue and a
completion 87 days ago is not. -/
theorem c3_overdue_boundary_witness :
    (getNextScheduledDate onceSchedule "Deep clean oven" (some (-88)) 0).overdue = true ∧
    (getNextScheduledDate onceSchedule "Deep clean oven" (some (-87)) 0).overdue = false := by
  have h : findTaskOccurrences onceSchedule "Deep clean oven" =
      [Occurrence.weekly 4 "Tuesday" 2] := by decide
  constructor
  · exact (c3_overdue_boundary onceSchedule "Deep clean oven" (-88) 0 4 "Tuesday" 2 [] h).mpr
      (by decide)
  · have h2 := c3_overdue_boundary onceSchedule "Deep clean oven" (-87) 0 4 "Tuesday" 2 [] h
    rw [show (getNextScheduledDate onceSchedule "Deep clean oven" (some (-87)) 0).overdue =
      false ↔ ¬ ((getNextScheduledDate onceSchedule "Deep clean oven" (some (-87)) 0).overdue
        = true) by simp]
    rw [h2]
    decide

/-- C4: recordTaskCompletion prunes on every write: afterwards no retained
entry was completed more than 84 days before the recorded date, and every
upserted entry at most 84 days old is retained. -/
theorem c4_history_pruned (history : List (String × HistoryEntry))
    (taskName location : String) (today : Int) :
    (∀ p ∈ recordTaskCompletion history taskName location today,
        today - p.2.lastCompleted ≤ 84) ∧
    (∀ p ∈ upsert history taskName ⟨location, today⟩,
        today - p.2.lastCompleted ≤ 84 →
        p ∈ recordTaskCompletion history taskName location today) := by
  constructor
  · intro p hp
    simp only [recordTaskCompletion, List.mem_filter] at hp
    obtain ⟨_, hq⟩ := hp
    simp only [Bool.not_eq_eq_eq_not, Bool.not_true, decide_eq_false_iff_not] at hq
    omega
  · intro p hp hle
    simp only [recordTaskCompletion, List.mem_filter]
    refine ⟨hp, ?_⟩
    simp only [Bool.not_eq_eq_eq_not, Bool.not_true, decide_eq_false_iff_not]
    omega

/-- C4 witness: recording New at day 0 over a history holding an entry 200
days old and one 84 days old keeps the fresh entry (and the concrete run
shows the 200-day-old entry is pruned while the 84-day-old one stays). -/
theorem c4_history_pruned_witness :
    (0 : Int) - (HistoryEntry.mk "Kitchen" 0).lastCompleted ≤ 84 ∧
    recordTaskCompletion [("Old", ⟨"Garage", -200⟩), ("Mid", ⟨"Bedroom", -84⟩)]
        "New" "Kitchen" 0 =
      [("Mid", ⟨"Bedroom", -84⟩), ("New", ⟨"Kitchen", 0⟩)] :=
  ⟨(c4_history_pruned [("Old", ⟨"Garage", -200⟩), ("Mid", ⟨"Bedroom", -84⟩)]
      "New" "Kitchen" 0).1 ("New", ⟨"Kitchen", 0⟩) (by decide), by decide⟩

/-- C5: a name present in daily_tasks yields exactly the one daily
occurrence (the rotation is never scanned, so collisions there are
irrelevant), and a name absent from daily_tasks and from every rotation
slot yields the empty list; matching is exact name equality. -/
theorem c5_occurrence_index (s : Schedule) (name : String) :
    (s.daily_tasks.any (fun t => t.name == name) = true →
      findTaskOccurrences s name = [Occurrence.daily]) ∧
    (s.daily_tasks.any (fun t => t.name == name) = false →
      (∀ pr ∈ s.twelve_week_schedule, ∀ day ∈ pr.2, ∀ t ∈ day.2, t.name ≠ name) →
      findTaskOccurrences s name = []) := by
  constructor
  · exact findTaskOccurrences_daily s name
  · intro hd habs
    unfold findTaskOccurrences
    rw [if_neg (by simp [hd])]
    rw [List.flatMap_eq_nil_iff]
    intro w _hw
    cases hlw : lookupWeek s w with
    | none => rfl
    | some week =>
      rw [List.filterMap_eq_nil_iff]
      intro day hday
      obtain ⟨pr, hpr, hpreq⟩ := lookupWeek_mem hlw
      rw [if_neg]
      simp only [List.any_eq_true, not_exists, not_and]
      intro t ht
      have hday' : day ∈ pr.2 := by rw [hpreq]; exact hday
      simpa using habs pr hpr day hday' t ht

/-- C5 witness: with the same name both daily and in the rotation the
result is the single daily occurrence; a name in neither yields []. -/
theorem c5_occurrence_index_witness :
    findTaskOccurrences collisionSchedule "Wipe counters" = [Occurrence.daily] ∧
    findTaskOccurrences collisionSchedule "Ghost task" = [] :=
  ⟨(c5_occurrence_index collisionSchedule "Wipe counters").1 (by decide),
   (c5_occurrence_index collisionSchedule "Ghost task").2 (by decide) (by decide)⟩

/-- C6: with an empty occurrence list the task is never overdue; the text
is the as-needed branch when a completion exists and the not-scheduled
branch when none does. -/
theorem c6_unscheduled (s : Schedule) (name : String) (d today : Int)
    (h : findTaskOccurrences s name = []) :
    getNextScheduledDate s name (some d) today = ⟨DueText.asNeeded, false⟩ ∧
    getNextScheduledDate s name none today = ⟨DueText.notScheduled, false⟩ := by
  constructor <;> simp only [getNextScheduledDate, h]

/-- C6 witness: a task absent from both daily and rotation data of the
empty schedule. -/
theorem c6_unscheduled_witness :
    getNextScheduledDate emptySchedule "Dust shelves" (some 5) 10 =
      ⟨DueText.asNeeded, false⟩ ∧
    getNextScheduledDate emptySchedule "Dust shelves" none 10 =
      ⟨DueText.notScheduled, false⟩ :=
  ⟨(c6_unscheduled emptySchedule "Dust shelves" 5 10 (by decide)).1,
   (c6_unscheduled emptySchedule "Dust shelves" 5 10 (by decide)).2⟩

/-- C7 counterexample: getTaskHistory does not treat a failed parse as
absent data: on its localStorage path the parse sits outside any try/catch,
so a stored text the parser rejects propagates the exception instead of
yielding the empty history. -/
theorem c7_counterexample :
    getTaskHistoryLocal (fun _ => none) (some "corrupted") = Except.error () ∧
    getTaskHistoryLocal (fun _ => none) (some "corrupted") ≠ Except.ok [] :=
  ⟨rfl, fun hc => Except.noConfusion hc⟩

/-- C7 amended: loadTaskStates treats a failed parse of the stored text as
absent data (default empty state), while getTaskHistory propagates the
parse failure from its localStorage path. -/
theorem c7_parse_failure (parseH : String → Option (List (String × HistoryEntry)))
    (parseS : String → Option StateDoc) (s today : String)
    (h1 : parseH s = none) (h2 : parseS s = none) :
    getTaskHistoryLocal parseH (some s) = Except.error () ∧
    loadTaskStatesLocal parseS (some s) today = [] := by
  constructor
  · simp only [getTaskHistoryLocal, h1]
  · simp only [loadTaskStatesLocal, h2]

/-- C7 witness: the amended behaviour at a concrete rejected text. -/
theorem c7_parse_failure_witness :
    getTaskHistoryLocal (fun _ => none) (some "bad data") = Except.error () ∧
    loadTaskStatesLocal (fun _ => none) (some "bad data") "Mon Jan 01 2024" = [] :=
  c7_parse_failure (fun _ => none) (fun _ => none) "bad data" "Mon Jan 01 2024" rfl rfl

/-- C9: a task with a daily occurrence is due tomorrow (now + 1 day) and
never overdue, whatever the completion history. -/
theorem c9_daily_tomorrow (s : Schedule) (name : String) (lc : Option Int)
    (today : Int) (h : s.daily_tasks.any (fun t => t.name == name) = true) :
    getNextScheduledDate s name lc today = ⟨DueText.tomorrowDaily (today + 1), false⟩ := by
  have hocc := findTaskOccurrences_daily s name h
  simp only [getNextScheduledDate, hocc]

/-- C9 witness: Wipe counters, never completed, is due tomorrow and not
overdue. -/
theorem c9_daily_tomorrow_witness :
    getNextScheduledDate collisionSchedule "Wipe counters" none 0 =
      ⟨DueText.tomorrowDaily 1, false⟩ :=
  c9_daily_tomorrow collisionSchedule "Wipe counters" none 0 (by decide)

/-- C10: saveTaskStates is idempotent: writing the same day's mapping twice
leaves the same persisted store as writing it once. -/
theorem c10_save_idempotent (store : List (String × StateDoc)) (today : String)
    (states : List (String × Bool)) :
    saveTaskStates (saveTaskStates store today states) today states =
      saveTaskStates store today states := by
  unfold saveTaskStates
  exact upsert_self _ _ _ (upsert_any _ _ _) (fun p hp hk => upsert_eq_of_mem hp hk)

/-- C1 counterexample: with Vacuum only in week_1/Monday and week_7/Monday,
on the reference date (day 0, a Monday in cycle-week 1) and with no
completion history, the result is not the due-today branch: the matching
Monday is rolled forward seven days. -/
theorem c1_counterexample :
    getDay 0 = 1 ∧ getCurrentWeekInCycle 0 = 1 ∧
    findTaskOccurrences vacuumSchedule "Vacuum" =
      [Occurrence.weekly 1 "Monday" 1, Occurrence.weekly 7 "Monday" 1] ∧
    (getNextScheduledDate vacuumSchedule "Vacuum" none 0).text ≠ DueText.dueToday := by
  decide

/-- C1 amended: in the Vacuum scenario (occurrences exactly week_1/Monday
and week_7/Monday, so expectedIntervalDays = 42), on any Monday in
cycle-week 1 with no history the next due date is today + 7 (the following
Monday, rendered through the weekday-name branch) and the task is not
overdue. -/
theorem c1_vacuum_next_monday (today : Int) (hmon : getDay today = 1)
    (hweek : getCurrentWeekInCycle today = 1) :
    getNextScheduledDate vacuumSchedule "Vacuum" none today =
      ⟨DueText.weekdayName (today + 7), false⟩ := by
  have hocc : findTaskOccurrences vacuumSchedule "Vacuum" =
      [Occurrence.weekly 1 "Monday" 1, Occurrence.weekly 7 "Monday" 1] := by decide
  have h1 : occNextDate today (getCurrentWeekInCycle today)
      (Occurrence.weekly 1 "Monday" 1) = today + 7 := by
    simp only [occNextDate, hweek, hmon]
    push_cast
    split_ifs <;> omega
  have h2 : occNextDate today (getCurrentWeekInCycle today)
      (Occurrence.weekly 7 "Monday" 1) = today + 49 := by
    simp only [occNextDate, hweek, hmon]
    push_cast
    split_ifs <;> omega
  simp only [getNextScheduledDate, hocc, List.map_cons, List.map_nil, h1, h2]
  have hs : sortInts [today + 7, today + 49] = [today + 7, today + 49] := by
    simp only [sortInts, List.foldr, insertSorted]
    rw [if_pos (show today + 7 ≤ today + 49 by omega)]
  rw [hs]
  simp only [List.headD_cons]
  rw [if_neg (by omega), if_neg (by omega), if_pos (by omega)]

/-- C1 witness: the amended claim at the concrete reference Monday. -/
theorem c1_vacuum_next_monday_witness :
    getNextScheduledDate vacuumSchedule "Vacuum" none 0 =
      ⟨DueText.weekdayName (0 + 7), false⟩ :=
  c1_vacuum_next_monday 0 (by decide) (by decide)

/-- C8: on the weekly path of a schedule whose weekday keys are canonical,
every candidate occurrence date is strictly after today, so the minimum is
strictly after today and the due-today display branch is unreachable. -/
theorem c8_weekly_never_due_today (s : Schedule) (name : String) (lc : Option Int)
    (today : Int) (w : Nat) (dn : String) (dow : Int) (rest : List Occurrence)
    (hwf : ∀ pr ∈ s.twelve_week_schedule, ∀ day ∈ pr.2, day.1 ∈ daysOfWeek)
    (h : findTaskOccurrences s name = Occurrence.weekly w dn dow :: rest) :
    (∀ d ∈ (Occurrence.weekly w dn dow :: rest).map
        (occNextDate today (getCurrentWeekInCycle today)), today < d) ∧
    (getNextScheduledDate s name lc today).text ≠ DueText.dueToday := by
  have hd : s.daily_tasks.any (fun t => t.name == name) = false := by
    cases hb : s.daily_tasks.any (fun t => t.name == name) with
    | false => rfl
    | true =>
      rw [findTaskOccurrences_daily s name hb] at h
      simp at h
  have hall : ∀ o ∈ Occurrence.weekly w dn dow :: rest,
      today < occNextDate today (getCurrentWeekInCycle today) o := by
    intro o ho
    have ho' : o ∈ findTaskOccurrences s name := by rw [h]; exact ho
    obtain ⟨w', dn', heq, pr, hpr, day, hday, hdn⟩ := occ_mem_shape hd ho'
    subst heq
    have hmem : dn' ∈ daysOfWeek := by rw [← hdn]; exact hwf pr hpr day hday
    obtain ⟨h0, h6⟩ := jsIndexOf_daysOfWeek_bounds dn' hmem
    exact occNextDate_gt_today today _ w' dn' _ h0 h6
  constructor
  · intro d hdm
    rw [List.mem_map] at hdm
    obtain ⟨o, ho, rfl⟩ := hdm
    exact hall o ho
  · simp only [getNextScheduledDate, h]
    have hne : (Occurrence.weekly w dn dow :: rest).map
        (occNextDate today (getCurrentWeekInCycle today)) ≠ [] := by simp
    have hsne := sortInts_ne_nil hne
    have hhd := headD_mem hsne today
    have hmem2 := mem_sortInts hhd
    rw [List.mem_map] at hmem2
    obtain ⟨o, ho, hoeq⟩ := hmem2
    have hgt : today < (sortInts ((Occurrence.weekly w dn dow :: rest).map
        (occNextDate today (getCurrentWeekInCycle today)))).headD today := by
      rw [← hoeq]; exact hall o ho
    split_ifs with hc1 hc2 hc3
    · exfalso; omega
    · simp
    · simp
    · simp

/-- C8 witness: the Vacuum schedule on the reference Monday with some
completion history: the first candidate date is strictly future and the
text is not the due-today branch. -/
theorem c8_weekly_never_due_today_witness :
    (0 : Int) < occNextDate 0 (getCurrentWeekInCycle 0) (Occurrence.weekly 1 "Monday" 1) ∧
    (getNextScheduledDate vacuumSchedule "Vacuum" (some (-10)) 0).text ≠ DueText.dueToday := by
  have hc := c8_weekly_never_due_today vacuumSchedule "Vacuum" (some (-10)) 0 1 "Monday" 1
    [Occurrence.weekly 7 "Monday" 1] (by decide) (by decide)
  exact ⟨hc.1 (occNextDate 0 (getCurrentWeekInCycle 0) (Occurrence.weekly 1 "Monday" 1))
    (by decide), hc.2⟩

end HomeTasks
